import Mathlib

/-!
Verification of the core of the ComfyUI Parallel Batch Simulator
(`src/App.tsx`): the pairing engine `buildJobs`, the job runner
`simulateRunJob`, the bounded-concurrency pool `runWithConcurrency`,
and the Collect alignment step of the lifecycle coordinator.

Modelling conventions for the shallow embedding of the TypeScript code:
* A value of TypeScript type `string[] | undefined` (or, more generally,
  an argument position that may hold a non-array value such as
  `undefined` or `null`) is modelled as `Option (List String)`, where
  `none` stands for the non-array value.  `Array.isArray` is then the
  `Option` pattern match performed by `toArraySafe`.
* A JavaScript function that may throw is modelled with an `Option`
  result, `none` standing for a thrown exception.
* `Math.random()` draws are passed in as explicit rational parameters
  in `[0,1)`; `Date.now()` timestamps are explicit `Nat` parameters.
-/

namespace ComfySim

/-- `Job` record produced by `buildJobs` (fields `index`, `prompt`,
`refs`, `payload`); the opaque `extraPayload` bag is modelled as an
optional string, copied verbatim into every job. -/
structure Job where
  index : Nat
  prompt : String
  refs : List String
  payload : Option String
deriving Repr, DecidableEq

/-- Handle status: the string union `"queued" | "running" | "succeeded"
| "failed"` of the source. -/
inductive Status where
  | queued
  | running
  | succeeded
  | failed
deriving Repr, DecidableEq

/-- `Handle` lifecycle record wrapping one `Job`. -/
structure Handle where
  job_id : String
  status : Status
  job : Job
  submit_ts : Nat
  finish_ts : Option Nat := none
  result_placeholder : Option String := none
  error : Option String := none
deriving Repr, DecidableEq

/-- `toArraySafe(x, fallback)` from the source: `Array.isArray(x) ? x :
fallback`.  `none` models any non-array value. -/
def toArraySafe {T : Type} (x : Option (List T)) (fallback : List T) : List T :=
  match x with
  | some l => l
  | none => fallback

/-- JavaScript truthiness of a string (`Boolean(s)`): `false` exactly
for the empty string.  Used by the `.filter(Boolean)` over shared refs. -/
def truthyStr (s : String) : Bool :=
  !s.isEmpty

/-- `buildJobs` from the source, modelled over `Option`-coded dynamic
inputs.  `prompts = none` stands for a non-array (`undefined`/`null`)
prompts value; in that case every branch of the source dereferences
`prompts` (`.forEach` or `.length`) and throws a `TypeError`, which the
model renders as `none`.  The mode is compared as a raw string, exactly
like the source; any unrecognized mode falls through to the final
cartesian block, which is not guarded by a mode test. -/
def buildJobs (mode : String) (sharedRefs : Option (List String))
    (prompts : Option (List String))
    (perPromptRefs : Option (List (Option (List String))))
    (extraPayload : Option String) : Option (List Job) :=
  let cleanedSharedRefs := (toArraySafe sharedRefs []).filter truthyStr
  let cleanedPerPrompt := (toArraySafe perPromptRefs []).map (fun g => toArraySafe g [])
  if mode = "one-to-many" then
    match prompts with
    | none => none
    | some ps =>
      some (ps.enum.map (fun pr =>
        { index := pr.1
          prompt := pr.2
          refs := cleanedSharedRefs
          payload := extraPayload }))
  else if mode = "zip" then
    match prompts with
    | none => none
    | some ps =>
      let n := Nat.min ps.length cleanedPerPrompt.length
      some ((List.range n).map (fun i =>
        { index := i
          prompt := ps.getD i ""
          refs := cleanedPerPrompt.getD i []
          payload := extraPayload }))
  else
    match prompts with
    | none => none
    | some ps =>
      if cleanedPerPrompt.length > 0 then
        some (((ps.map (fun p => cleanedPerPrompt.map (fun group => (p, group)))).flatten).enum.map
          (fun pr =>
            { index := pr.1
              prompt := pr.2.1
              refs := pr.2.2
              payload := extraPayload }))
      else
        some (((ps.map (fun p => cleanedSharedRefs.map (fun r => (p, [r])))).flatten).enum.map
          (fun pr =>
            { index := pr.1
              prompt := pr.2.1
              refs := pr.2.2
              payload := extraPayload }))

/-- The latency draw of `simulateRunJob`: `Math.floor(min + Math.random()
* (max - min))` with the random draw `r1 ∈ [0,1)` made explicit. -/
def simulatedLatencyMs (latencyMsRange : Rat × Rat) (r1 : Rat) : Int :=
  ⌊latencyMsRange.1 + r1 * (latencyMsRange.2 - latencyMsRange.1)⌋

/-- The terminal-outcome computation of `simulateRunJob`: after the
timeout fires, a second draw `r2 ∈ [0,1)` is compared with `failRate`;
below it the handle resolves to a failed copy with the fixed message,
otherwise to a succeeded copy whose `result_placeholder` is derived from
the job index.  `now` is the `Date.now()` value at completion. -/
def simulateRunJob (handle : Handle) (failRate : Rat) (r2 : Rat) (now : Nat) :
    Handle :=
  if r2 < failRate then
    { handle with
        status := .failed
        error := some "Simulated error"
        finish_ts := some now }
  else
    { handle with
        status := .succeeded
        result_placeholder := some ("OK:" ++ toString handle.job.index)
        finish_ts := some now }

/-- The `byIndex` accumulator of `onCollect`: `results.forEach((r) =>
byIndex[r.job.index] = r)` builds a map in which the LAST result with a
given job index wins; looking the index up afterwards is finding the
last matching entry of `results`. -/
def byIndexLookup (results : List Handle) (i : Nat) : Option Handle :=
  results.reverse.find? (fun r => r.job.index == i)

/-- The placeholder handle `onCollect` synthesizes for a job index with
no accumulated completion. -/
def pendingHandle (j : Job) (now : Nat) : Handle :=
  { job_id := "pending_" ++ toString j.index
    status := .queued
    job := j
    submit_ts := now }

/-- The alignment step of `onCollect`: `jobs.map((j) => byIndex[j.index]
|| placeholder)`.  A handle object is always truthy, so `||` falls to
the placeholder exactly when the index is absent from the accumulator. -/
def onCollectAligned (jobs : List Job) (results : List Handle) (now : Nat) :
    List Handle :=
  jobs.map (fun j =>
    match byIndexLookup results j.index with
    | some h => h
    | none => pendingHandle j now)

/-!
Transition-system model of `runWithConcurrency`.  The mutable closure
state of the source (`i`, `inFlight`, `res`, and whether `resolve` has
been called) becomes a `PoolState`; the synchronous `pump` loop is the
function `pump`; the settlement of one worker's promise (its `.then`
pushing the result, then its `.finally` decrementing `inFlight` and
either resolving or re-pumping) is the function `settle`.  The event
loop's freedom in choosing which in-flight promise settles next is the
nondeterminism of the `Reaches` relation, whose trace argument records
the settlement (completion) order.  A deterministic worker is modelled
by the function `f` from item position to result. -/

/-- State of one `runWithConcurrency` run: items dispatched so far
(`nextI`), positions of dispatched-but-unsettled workers (`inFlight`,
in dispatch order), results pushed so far (`res`, in completion order),
and the value `resolve` was called with, if any. -/
structure PoolState (R : Type) where
  nextI : Nat
  inFlight : List Nat
  res : List R
  resolvedWith : Option (List R)
deriving Repr, DecidableEq

variable {R : Type}

/-- The `pump` loop: `while (inFlight < k && i < q.length)` dispatch the
next item. -/
def pump (n k : Nat) (s : PoolState R) : PoolState R :=
  if _h : s.inFlight.length < k ∧ s.nextI < n then
    pump n k { s with
      nextI := s.nextI + 1
      inFlight := s.inFlight ++ [s.nextI] }
  else s
termination_by n - s.nextI
decreasing_by omega

/-- Settlement of the worker for item `j`: push its result, free its
slot, then `res.length === items.length ? resolve(res) : pump()`. -/
def settle (f : Nat → R) (n k : Nat) (j : Nat) (s : PoolState R) : PoolState R :=
  let res1 := s.res ++ [f j]
  let s1 : PoolState R :=
    { s with
        inFlight := s.inFlight.erase j
        res := res1 }
  if res1.length = n then { s1 with resolvedWith := some res1 } else pump n k s1

/-- Reachable states of a `runWithConcurrency n k` run with worker `f`:
the initial synchronous `pump` call, followed by any interleaving of
settlements of in-flight workers.  The list index is the settlement
(completion) order of the run so far. -/
inductive Reaches (f : Nat → R) (n k : Nat) : List Nat → PoolState R → Prop where
  | init :
      Reaches f n k []
        (pump n k { nextI := 0, inFlight := [], res := [], resolvedWith := none })
  | step {tr : List Nat} {s : PoolState R} {j : Nat} :
      Reaches f n k tr s → j ∈ s.inFlight → s.resolvedWith = none →
      Reaches f n k (tr ++ [j]) (settle f n k j s)

/-! ### Helper lemmas -/

theorem toArraySafe_some {T : Type} (l fallback : List T) :
    toArraySafe (some l) fallback = l := rfl

theorem toArraySafe_none {T : Type} (fallback : List T) :
    toArraySafe (none : Option (List T)) fallback = fallback := rfl

/-- Unfolding of the one-to-many branch of `buildJobs`. -/
theorem buildJobs_oneToMany_eq (S : Option (List String)) (ps : List String)
    (G : Option (List (Option (List String)))) (pl : Option String) :
    buildJobs "one-to-many" S (some ps) G pl =
      some (ps.enum.map (fun pr =>
        { index := pr.1
          prompt := pr.2
          refs := (toArraySafe S []).filter truthyStr
          payload := pl })) := rfl

/-- Unfolding of the zip branch of `buildJobs`. -/
theorem buildJobs_zip_eq (S : Option (List String)) (ps : List String)
    (G : Option (List (Option (List String)))) (pl : Option String) :
    buildJobs "zip" S (some ps) G pl =
      some ((List.range
          (Nat.min ps.length ((toArraySafe G []).map (fun g => toArraySafe g [])).length)).map
        (fun i =>
          { index := i
            prompt := ps.getD i ""
            refs := ((toArraySafe G []).map (fun g => toArraySafe g [])).getD i []
            payload := pl })) := rfl

/-- Unfolding of the cartesian branch of `buildJobs` when at least one
per-prompt group is present after coercion. -/
theorem buildJobs_cartesian_groups_eq (S : Option (List String)) (ps : List String)
    (G : List (Option (List String))) (pl : Option String) (hG : G ≠ []) :
    buildJobs "cartesian" S (some ps) (some G) pl =
      some (((ps.map (fun p =>
          (G.map (fun g => toArraySafe g [])).map (fun group => (p, group)))).flatten).enum.map
        (fun pr =>
          { index := pr.1
            prompt := pr.2.1
            refs := pr.2.2
            payload := pl })) := by
  have hlen : 0 < (G.map (fun g => toArraySafe g [])).length := by
    simpa [List.length_pos] using hG
  simp only [buildJobs, toArraySafe_some, reduceIte, hlen, if_pos]
  rfl

/-- Unfolding of the cartesian fallback branch of `buildJobs` (no
per-prompt groups). -/
theorem buildJobs_cartesian_fallback_eq (S : Option (List String)) (ps : List String)
    (pl : Option String) :
    buildJobs "cartesian" S (some ps) (some []) pl =
      some (((ps.map (fun p =>
          ((toArraySafe S []).filter truthyStr).map (fun r => (p, [r])))).flatten).enum.map
        (fun pr =>
          { index := pr.1
            prompt := pr.2.1
            refs := pr.2.2
            payload := pl })) := rfl

/-- Length of the flattened prompt-by-option cross join: the nested
loops of the cartesian branch yield `len(prompts) * len(options)`
pushes. -/
theorem length_prod_flatten {α β γ : Type} (ps : List α) (L : List β) (m : α → β → γ) :
    ((ps.map (fun p => L.map (m p))).flatten).length = ps.length * L.length := by
  induction ps with
  | nil => simp
  | cons a ps ih =>
    rw [List.map_cons, List.flatten_cons, List.length_append, ih, List.length_cons,
      List.length_map, Nat.succ_mul, Nat.add_comm]

/-- Element `i * len(L) + g` of the flattened cross join is the pair
built from prompt `i` and option `g`: the outer loop runs over prompts,
the inner loop over options, and pushes are sequential. -/
theorem getElem?_prod_flatten {α β γ : Type} (ps : List α) (L : List β) (m : α → β → γ)
    {i g : Nat} {p : α} {x : β} (hp : ps[i]? = some p) (hx : L[g]? = some x) :
    ((ps.map (fun q => L.map (m q))).flatten)[i * L.length + g]? = some (m p x) := by
  have hg : g < L.length := by
    rcases List.getElem?_eq_some.mp hx with ⟨h, _⟩
    exact h
  induction ps generalizing i with
  | nil => simp at hp
  | cons a ps ih =>
    rw [List.map_cons, List.flatten_cons]
    cases i with
    | zero =>
      have ha : a = p := by
        simpa using hp
      subst ha
      rw [Nat.zero_mul, Nat.zero_add, List.getElem?_append,
        if_pos (by simpa using hg), List.getElem?_map, hx]
      rfl
    | succ i =>
      have hlen : (L.map (m a)).length ≤ (i + 1) * L.length + g := by
        rw [List.length_map, Nat.succ_mul]
        omega
      rw [List.getElem?_append, if_neg (by omega), List.length_map]
      have harith : (i + 1) * L.length + g - L.length = i * L.length + g := by
        rw [Nat.succ_mul]
        omega
      rw [harith]
      exact ih (by simpa using hp)

/-- Element `k` of the job list built from a flattened cross join: the
running `idx++` counter equals the position in the flattened list. -/
theorem getElem?_enumJobs {γ : Type} (l : List γ) (mkJob : Nat × γ → Job) (k : Nat) :
    (l.enum.map mkJob)[k]? = (l[k]?).map (fun pr => mkJob (k, pr)) := by
  rw [List.getElem?_map, List.getElem?_enum]
  cases l[k]? <;> rfl

/-- Job count of the cartesian branch with per-prompt groups. -/
theorem cartesian_groups_length (S : Option (List String)) (P : List String)
    (G : List (Option (List String))) (pl : Option String) (hG : G ≠ []) :
    ((buildJobs "cartesian" S (some P) (some G) pl).getD []).length =
      P.length * G.length := by
  rw [buildJobs_cartesian_groups_eq S P G pl hG, Option.getD_some, List.length_map,
    List.enum_length,
    length_prod_flatten P (G.map (fun g => toArraySafe g [])) (fun p group => (p, group)),
    List.length_map]

/-- Element `i * len(G) + g` of the cartesian branch with per-prompt
groups: prompt `i` crossed with group `g`, refs being the (coerced)
group as a whole. -/
theorem cartesian_groups_getElem? (S : Option (List String)) (P : List String)
    (G : List (Option (List String))) (pl : Option String)
    {i g : Nat} {p : String} {og : Option (List String)}
    (hp : P[i]? = some p) (hg : G[g]? = some og) :
    ((buildJobs "cartesian" S (some P) (some G) pl).getD [])[i * G.length + g]? =
      some ({ index := i * G.length + g, prompt := p, refs := toArraySafe og []
              payload := pl } : Job) := by
  have hG : G ≠ [] := by
    intro h
    subst h
    simp at hg
  rw [buildJobs_cartesian_groups_eq S P G pl hG, Option.getD_some]
  have hg2 : (G.map (fun g => toArraySafe g []))[g]? = some (toArraySafe og []) := by
    rw [List.getElem?_map, hg]
    rfl
  have h2 := getElem?_prod_flatten P (G.map (fun g => toArraySafe g []))
    (fun p group => (p, group)) hp hg2
  rw [List.length_map] at h2
  rw [getElem?_enumJobs, h2]
  rfl

/-- Job count of the cartesian fallback branch (no per-prompt groups):
one job per prompt per truthy shared ref. -/
theorem cartesian_fallback_length (S : List String) (P : List String) (pl : Option String) :
    ((buildJobs "cartesian" (some S) (some P) (some []) pl).getD []).length =
      P.length * (S.filter truthyStr).length := by
  rw [buildJobs_cartesian_fallback_eq (some S) P pl, Option.getD_some]
  simp only [toArraySafe_some]
  rw [List.length_map, List.enum_length,
    length_prod_flatten P (S.filter truthyStr) (fun p r => (p, [r]))]

/-- Element `i * len(S') + r` of the cartesian fallback branch, where
`S'` is the truthy-filtered shared list: a singleton refs list. -/
theorem cartesian_fallback_getElem? (S P : List String) (pl : Option String)
    {i r : Nat} {p x : String}
    (hp : P[i]? = some p) (hx : (S.filter truthyStr)[r]? = some x) :
    ((buildJobs "cartesian" (some S) (some P) (some [])
        pl).getD [])[i * (S.filter truthyStr).length + r]? =
      some ({ index := i * (S.filter truthyStr).length + r, prompt := p, refs := [x]
              payload := pl } : Job) := by
  rw [buildJobs_cartesian_fallback_eq (some S) P pl, Option.getD_some]
  simp only [toArraySafe_some]
  have h2 := getElem?_prod_flatten P (S.filter truthyStr) (fun p r => (p, [r])) hp hx
  rw [getElem?_enumJobs, h2]
  rfl

/-- Element `i` of the zip branch over arbitrary (possibly non-list)
group entries: refs are the coerced group at position `i`. -/
theorem buildJobs_zip_getElem? (S : Option (List String)) (P : List String)
    (Gm : List (Option (List String))) (pl : Option String) {i : Nat} {p : String}
    {og : Option (List String)} (hp : P[i]? = some p) (hg : Gm[i]? = some og) :
    ((buildJobs "zip" S (some P) (some Gm) pl).getD [])[i]? =
      some ({ index := i, prompt := p, refs := toArraySafe og [], payload := pl } : Job) := by
  rw [buildJobs_zip_eq S P (some Gm) pl, Option.getD_some]
  simp only [toArraySafe_some]
  obtain ⟨hip, hvp⟩ := List.getElem?_eq_some.mp hp
  obtain ⟨hig, hvg⟩ := List.getElem?_eq_some.mp hg
  have hin : i < Nat.min P.length (Gm.map (fun g => toArraySafe g [])).length := by
    rw [List.length_map]
    exact Nat.lt_min.mpr ⟨hip, hig⟩
  rw [List.getElem?_map, List.getElem?_range hin, Option.map_some']
  have h1 : P.getD i "" = p := by
    rw [List.getD_eq_getElem P "" hip, hvp]
  have h2 : (Gm.map (fun g => toArraySafe g [])).getD i [] = toArraySafe og [] := by
    have hmem : (Gm.map (fun g => toArraySafe g []))[i]? = some (toArraySafe og []) := by
      rw [List.getElem?_map, hg]
      rfl
    obtain ⟨hh, hv⟩ := List.getElem?_eq_some.mp hmem
    rw [List.getD_eq_getElem _ [] hh, hv]
  rw [h1, h2]

/-! ### Claim theorems -/

/-- Claim C5: in zip mode `buildJobs` returns exactly
`min(len(P), len(G))` jobs ordered by ascending prompt index, job `i`
carrying refs `G[i]`; excess prompts or groups beyond the shorter
length are silently dropped (the call still succeeds and simply has no
entries past the minimum, by the length equation). -/
theorem buildJobs_zip_spec (P : List String) (G : List (List String))
    (S : Option (List String)) (pl : Option String) :
    ∃ jobs : List Job, buildJobs "zip" S (some P) (some (G.map some)) pl = some jobs ∧
      jobs.length = Nat.min P.length G.length ∧
      ∀ i p g, P[i]? = some p → G[i]? = some g →
        jobs[i]? = some ({ index := i, prompt := p, refs := g, payload := pl } : Job) := by
  have hcomp : ((fun g => toArraySafe g []) ∘ some) = (id : List String → List String) := by
    funext g
    rfl
  have hGG : ((toArraySafe (some (G.map some)) []).map (fun g => toArraySafe g [])) = G := by
    rw [toArraySafe_some, List.map_map, hcomp, List.map_id]
  refine ⟨_, buildJobs_zip_eq S P (some (G.map some)) pl, ?_, ?_⟩
  · rw [List.length_map, List.length_range, hGG]
  · intro i p g hp hg
    obtain ⟨hip, hvp⟩ := List.getElem?_eq_some.mp hp
    obtain ⟨hig, hvg⟩ := List.getElem?_eq_some.mp hg
    have hin : i < Nat.min P.length ((toArraySafe (some (G.map some)) []).map
        (fun g => toArraySafe g [])).length := by
      rw [hGG]
      exact Nat.lt_min.mpr ⟨hip, hig⟩
    rw [List.getElem?_map]
    rw [List.getElem?_range hin]
    rw [Option.map_some']
    have h1 : P.getD i "" = p := by
      rw [List.getD_eq_getElem P "" hip, hvp]
    have h2 : ((toArraySafe (some (G.map some)) []).map (fun g => toArraySafe g [])).getD i [] = g := by
      rw [hGG, List.getD_eq_getElem G [] hig, hvg]
    rw [h1, h2]

/-- Witness for C5 at the mismatch scenario of the repo test suite. -/
theorem buildJobs_zip_spec_witness :
    ((buildJobs "zip" none (some ["p1", "p2", "p3", "p4"])
        (some [some ["r1"], some ["r2"]]) none).getD [])[1]? =
      some ({ index := 1, prompt := "p2", refs := ["r2"], payload := none } : Job) := by
  obtain ⟨jobs, hj, hlen, helt⟩ :=
    buildJobs_zip_spec ["p1", "p2", "p3", "p4"] [["r1"], ["r2"]] none none
  have helt1 := helt 1 "p2" ["r2"] rfl rfl
  show ((buildJobs "zip" none (some ["p1", "p2", "p3", "p4"])
      (some ([["r1"], ["r2"]].map some)) none).getD [])[1]? = _
  rw [hj]
  exact helt1

/-- Claim C6 (corrected): one-to-many produces `len(P)` jobs with
sequential indices, but each job's refs are the shared list with falsy
(empty-string) entries filtered out, not the verbatim shared list. -/
theorem buildJobs_oneToMany_spec (P S : List String)
    (G : Option (List (Option (List String)))) (pl : Option String) :
    ∃ jobs : List Job, buildJobs "one-to-many" (some S) (some P) G pl = some jobs ∧
      jobs.length = P.length ∧
      ∀ i p, P[i]? = some p →
        jobs[i]? = some
          ({ index := i, prompt := p, refs := S.filter truthyStr, payload := pl } : Job) := by
  refine ⟨_, buildJobs_oneToMany_eq (some S) P G pl, ?_, ?_⟩
  · rw [List.length_map, List.enum_length]
  · intro i p hp
    rw [List.getElem?_map, List.getElem?_enum, hp]
    rfl

/-- Counterexample for C6 as stated: with `S = [""]` the job's refs are
`[]`, not `S` verbatim. -/
theorem buildJobs_oneToMany_refs_cex :
    buildJobs "one-to-many" (some [""]) (some ["p"]) none none ≠
      some [{ index := 0, prompt := "p", refs := [""], payload := none }] := by
  decide

/-- Witness for C6. -/
theorem buildJobs_oneToMany_spec_witness :
    ((buildJobs "one-to-many" (some ["S1", ""]) (some ["x", "y"]) none none).getD [])[1]? =
      some ({ index := 1, prompt := "y", refs := ["S1"], payload := none } : Job) := by
  obtain ⟨jobs, hj, hlen, helt⟩ :=
    buildJobs_oneToMany_spec ["x", "y"] ["S1", ""] none none
  have helt1 := helt 1 "y" rfl
  rw [hj]
  exact helt1

/-- Counterexample for C2 as stated: a mode string other than the three
recognized ones does not yield an empty job list — the source's final
cartesian block is not guarded by a mode test, so unknown modes fall
through to it. -/
theorem buildJobs_unknown_mode_cex :
    buildJobs "bogus" (some []) (some ["a"]) (some [some ["r"]]) none ≠ some [] := by
  decide

/-- Claim C2 (corrected): zero-length prompts yield an empty job list in
every mode, and the call never fails; but a mode value other than
one-to-many/zip/cartesian behaves exactly like cartesian (fallthrough)
instead of yielding an empty list. -/
theorem buildJobs_empty_prompts_and_mode_fallthrough (mode : String)
    (S : Option (List String)) (G : Option (List (Option (List String))))
    (P : List String) (pl : Option String) :
    buildJobs mode S (some []) G pl = some []
  ∧ (mode ≠ "one-to-many" → mode ≠ "zip" →
      buildJobs mode S (some P) G pl = buildJobs "cartesian" S (some P) G pl) := by
  constructor
  · by_cases h1 : mode = "one-to-many"
    · subst h1
      simp [buildJobs]
    · by_cases h2 : mode = "zip"
      · subst h2
        simp [buildJobs]
      · simp only [buildJobs, if_neg h1, if_neg h2]
        split <;> simp
  · intro h1 h2
    simp only [buildJobs, if_neg h1, if_neg h2]
    rfl

/-- Witness for C2 (amended). -/
theorem buildJobs_empty_prompts_witness :
    buildJobs "weird-mode" (some ["S"]) (some []) (some [some ["r"]]) none = some []
  ∧ buildJobs "weird-mode" (some ["S"]) (some ["a"]) (some [some ["r"]]) none =
      buildJobs "cartesian" (some ["S"]) (some ["a"]) (some [some ["r"]]) none := by
  constructor
  · exact (buildJobs_empty_prompts_and_mode_fallthrough "weird-mode" (some ["S"])
      (some [some ["r"]]) ["a"] none).1
  · exact (buildJobs_empty_prompts_and_mode_fallthrough "weird-mode" (some ["S"])
      (some [some ["r"]]) ["a"] none).2 (by decide) (by decide)

/-- Counterexample for C7 as stated: a non-array prompts value
(`undefined`/`null`, modelled by `none`) makes the one-to-many branch
dereference `prompts.forEach`, which throws a `TypeError` (modelled by
the `none` result) — `buildJobs` is not total over malformed prompts. -/
theorem buildJobs_nonlist_prompts_cex :
    buildJobs "one-to-many" (some ["S"]) none (some []) none = none := rfl

/-- Claim C7 (corrected): `buildJobs` never fails as long as the prompts
value is an actual list (of any length, in any mode, for any payload),
and non-list values for shared refs and per-prompt groups degrade to
empty lists exactly as if explicit empty lists had been passed; but a
non-list prompts value throws. -/
theorem buildJobs_total_on_list_prompts (mode : String) (S : Option (List String))
    (P : List String) (G : Option (List (Option (List String)))) (pl : Option String) :
    (buildJobs mode S (some P) G pl).isSome = true
  ∧ buildJobs mode none (some P) none pl =
      buildJobs mode (some []) (some P) (some []) pl := by
  constructor
  · by_cases h1 : mode = "one-to-many"
    · subst h1
      simp [buildJobs]
    · by_cases h2 : mode = "zip"
      · subst h2
        simp [buildJobs]
      · simp only [buildJobs, if_neg h1, if_neg h2]
        split <;> simp
  · by_cases h1 : mode = "one-to-many"
    · subst h1
      rfl
    · by_cases h2 : mode = "zip"
      · subst h2
        rfl
      · simp only [buildJobs, if_neg h1, if_neg h2]
        rfl

/-- Counterexample for C1 as stated: in the fallback branch the job
count is `len(P) × len(filter(Boolean, S))`, not `len(P) × len(S)` —
with `S = ["", "x"]` one prompt yields 1 job, not 2. -/
theorem buildJobs_cartesian_fallback_len_cex :
    ((buildJobs "cartesian" (some ["", "x"]) (some ["p"]) (some []) none).getD []).length ≠
      (["p"] : List String).length * (["", "x"] : List String).length := by
  decide

/-- Claim C1 (corrected): cartesian mode with a non-empty group list
(each non-list group coerced to an empty list) yields `len(P) × len(G)`
jobs with sequential indices, prompt-outer/group-inner ordering, each
job's refs being the whole (coerced) group — an explicitly empty group
giving a text-only job for every prompt; with an empty group list it
falls back to `len(P) × len(S')` jobs, where `S'` is the shared list
with falsy entries filtered out (not the raw shared list), each job
holding a singleton ref from `S'`, in the same nested order. -/
theorem buildJobs_cartesian_spec (P : List String) (G : List (Option (List String)))
    (S : List String) (pl : Option String) :
    (G ≠ [] →
      ((buildJobs "cartesian" (some S) (some P) (some G) pl).getD []).length =
          P.length * G.length ∧
        ∀ i g p og, P[i]? = some p → G[g]? = some og →
          ((buildJobs "cartesian" (some S) (some P) (some G) pl).getD
              [])[i * G.length + g]? =
            some ({ index := i * G.length + g, prompt := p, refs := toArraySafe og []
                    payload := pl } : Job))
  ∧ (G = [] →
      ((buildJobs "cartesian" (some S) (some P) (some G) pl).getD []).length =
          P.length * (S.filter truthyStr).length ∧
        ∀ i r p x, P[i]? = some p → (S.filter truthyStr)[r]? = some x →
          ((buildJobs "cartesian" (some S) (some P) (some G) pl).getD
              [])[i * (S.filter truthyStr).length + r]? =
            some ({ index := i * (S.filter truthyStr).length + r, prompt := p, refs := [x]
                    payload := pl } : Job)) := by
  constructor
  · intro hG
    refine ⟨cartesian_groups_length (some S) P G pl hG, ?_⟩
    intro i g p og hp hg
    exact cartesian_groups_getElem? (some S) P G pl hp hg
  · intro hG
    subst hG
    refine ⟨cartesian_fallback_length S P pl, ?_⟩
    intro i r p x hp hx
    exact cartesian_fallback_getElem? S P pl hp hx

/-- Witness for C1 (amended), both branches: an explicitly empty group
gives a text-only job, and the fallback builds singleton refs from the
filtered shared list. -/
theorem buildJobs_cartesian_spec_witness :
    ((buildJobs "cartesian" (some ["s"]) (some ["a", "b"])
        (some [some ["R1"], none]) none).getD [])[3]? =
      some ({ index := 3, prompt := "b", refs := [], payload := none } : Job)
  ∧ ((buildJobs "cartesian" (some ["", "x"]) (some ["a"]) (some []) none).getD [])[0]? =
      some ({ index := 0, prompt := "a", refs := ["x"], payload := none } : Job) := by
  constructor
  · have h := ((buildJobs_cartesian_spec ["a", "b"] [some ["R1"], none] ["s"] none).1
      (by decide)).2 1 1 "b" none rfl rfl
    simpa using h
  · have h := ((buildJobs_cartesian_spec ["a"] [] ["", "x"] none).2 rfl).2 0 0 "a" "x"
      rfl (by decide)
    simpa using h

/-- Claim C10: per-prompt group contents reach a job's refs verbatim in
zip and cartesian-with-groups modes (falsy elements such as `""` inside
a group are preserved; only a group that is not a list is coerced to an
empty list), whereas the shared refs list is filtered of falsy entries
before use in one-to-many and fallback-cartesian modes. -/
theorem refs_filtering_policy (P S : List String) (G : List (List String))
    (Gm : List (Option (List String))) (pl : Option String) :
    (∀ i p g, P[i]? = some p → G[i]? = some g →
      ((buildJobs "zip" (some S) (some P) (some (G.map some)) pl).getD [])[i]? =
        some ({ index := i, prompt := p, refs := g, payload := pl } : Job))
  ∧ (∀ i p, P[i]? = some p → Gm[i]? = some none →
      ((buildJobs "zip" (some S) (some P) (some Gm) pl).getD [])[i]? =
        some ({ index := i, prompt := p, refs := [], payload := pl } : Job))
  ∧ (∀ i g p x, P[i]? = some p → G[g]? = some x →
      ((buildJobs "cartesian" (some S) (some P) (some (G.map some)) pl).getD
          [])[i * G.length + g]? =
        some ({ index := i * G.length + g, prompt := p, refs := x, payload := pl } : Job))
  ∧ (∀ j, j ∈ (buildJobs "one-to-many" (some S) (some P) none pl).getD [] →
      j.refs = S.filter truthyStr)
  ∧ (∀ j, j ∈ (buildJobs "cartesian" (some S) (some P) (some []) pl).getD [] →
      ∃ x ∈ S.filter truthyStr, j.refs = [x]) := by
  refine ⟨?_, ?_, ?_, ?_, ?_⟩
  · intro i p g hp hg
    have hg2 : (G.map some)[i]? = some (some g) := by
      rw [List.getElem?_map, hg]
      rfl
    exact buildJobs_zip_getElem? (some S) P (G.map some) pl hp hg2
  · intro i p hp hg
    exact buildJobs_zip_getElem? (some S) P Gm pl hp hg
  · intro i g p x hp hx
    have hx2 : (G.map some)[g]? = some (some x) := by
      rw [List.getElem?_map, hx]
      rfl
    have h := cartesian_groups_getElem? (some S) P (G.map some) pl hp hx2
    rw [List.length_map] at h
    exact h
  · intro j hj
    rw [buildJobs_oneToMany_eq (some S) P none pl, Option.getD_some] at hj
    obtain ⟨pr, hpr, hmk⟩ := List.mem_map.mp hj
    rw [← hmk]
    rfl
  · intro j hj
    rw [buildJobs_cartesian_fallback_eq (some S) P pl, Option.getD_some] at hj
    simp only [toArraySafe_some] at hj
    obtain ⟨pr, hpr, hmk⟩ := List.mem_map.mp hj
    have hflat := List.mem_enum_iff_getElem?.mp hpr
    obtain ⟨inner, hinner, hmem2⟩ := List.mem_flatten.mp (List.getElem?_mem hflat)
    obtain ⟨q, hq, hinner2⟩ := List.mem_map.mp hinner
    rw [← hinner2] at hmem2
    obtain ⟨x, hxmem, hpair⟩ := List.mem_map.mp hmem2
    refine ⟨x, hxmem, ?_⟩
    rw [← hmk, ← hpair]

/-- Witness for C10: a falsy element inside a per-prompt group survives
into the job's refs, while a falsy shared ref is dropped. -/
theorem refs_filtering_policy_witness :
    ((buildJobs "zip" (some ["", "s"]) (some ["p"]) (some [some ["", "A"]]) none).getD
        [])[0]? =
      some ({ index := 0, prompt := "p", refs := ["", "A"], payload := none } : Job)
  ∧ (∀ j, j ∈ (buildJobs "one-to-many" (some ["", "s"]) (some ["p"]) none none).getD [] →
      j.refs = ["s"]) := by
  constructor
  · exact (refs_filtering_policy ["p"] ["", "s"] [["", "A"]] [] none).1 0 "p" ["", "A"]
      rfl rfl
  · intro j hj
    exact (refs_filtering_policy ["p"] ["", "s"] [["", "A"]] [] none).2.2.2.1 j hj

/-! ### Collect alignment (C4) -/

/-- `find?` returns the unique matching element when the projection is
duplicate-free. -/
theorem find?_eq_of_nodup_mem {l : List Handle} {r : Handle} {i : Nat}
    (hnd : (l.map (fun h => h.job.index)).Nodup) (hm : r ∈ l)
    (hi : r.job.index = i) :
    l.find? (fun h => h.job.index == i) = some r := by
  induction l with
  | nil => simp at hm
  | cons a l ih =>
    rw [List.map_cons, List.nodup_cons] at hnd
    rcases List.mem_cons.mp hm with h | h
    · subst h
      exact List.find?_cons_of_pos _ (by simpa using hi)
    · have hne : ¬ a.job.index = i := by
        intro he
        apply hnd.1
        rw [he, ← hi]
        exact List.mem_map_of_mem (fun h => h.job.index) h
      rw [List.find?_cons_of_neg _ (by simpa using hne)]
      exact ih hnd.2 h

/-- With duplicate-free job indices the last-write-wins accumulator
lookup returns the unique result carrying that index. -/
theorem byIndexLookup_eq_some {results : List Handle} {r : Handle} {i : Nat}
    (hnd : (results.map (fun h => h.job.index)).Nodup) (hm : r ∈ results)
    (hi : r.job.index = i) :
    byIndexLookup results i = some r := by
  unfold byIndexLookup
  apply find?_eq_of_nodup_mem _ (List.mem_reverse.mpr hm) hi
  rw [List.map_reverse]
  exact List.nodup_reverse.mpr hnd

/-- The accumulator lookup misses exactly when no result carries the
index. -/
theorem byIndexLookup_eq_none {results : List Handle} {i : Nat}
    (h : ∀ r ∈ results, r.job.index ≠ i) :
    byIndexLookup results i = none := by
  unfold byIndexLookup
  rw [List.find?_eq_none]
  intro a ha
  simpa using h a (List.mem_reverse.mp ha)

/-- A successful accumulator lookup returns an accumulated result whose
job carries the looked-up index. -/
theorem byIndexLookup_mem {results : List Handle} {i : Nat} {h : Handle}
    (hf : byIndexLookup results i = some h) : h ∈ results ∧ h.job.index = i := by
  unfold byIndexLookup at hf
  refine ⟨List.mem_reverse.mp (List.mem_of_find?_eq_some hf), ?_⟩
  simpa using List.find?_some hf

/-- Claim C4: Collect produces one output handle per job, in ascending
job-index order (the output index sequence equals the job index
sequence); a job index with an accumulated completion gets that
completed handle (independently of arrival order — the characterization
depends only on membership in the accumulator, given duplicate-free
indices), and a job index with no completion gets a synthesized
placeholder with status `queued`, the synthetic id `pending_<index>`,
and no result fields. -/
theorem onCollect_alignment (jobs : List Job) (results : List Handle) (now : Nat) :
    (onCollectAligned jobs results now).length = jobs.length
  ∧ (onCollectAligned jobs results now).map (fun h => h.job.index) =
      jobs.map (fun j => j.index)
  ∧ ∀ (k : Nat) (j : Job), jobs[k]? = some j →
      ((∀ r ∈ results, r.job.index ≠ j.index) →
        (onCollectAligned jobs results now)[k]? =
          some ({ job_id := "pending_" ++ toString j.index
                  status := .queued
                  job := j
                  submit_ts := now
                  finish_ts := none
                  result_placeholder := none
                  error := none } : Handle))
    ∧ (∀ r, r ∈ results → r.job.index = j.index →
        (results.map (fun h => h.job.index)).Nodup →
        (onCollectAligned jobs results now)[k]? = some r) := by
  refine ⟨List.length_map _ _, ?_, ?_⟩
  · unfold onCollectAligned
    rw [List.map_map]
    apply List.map_congr_left
    intro j hj
    simp only [Function.comp]
    cases hfind : byIndexLookup results j.index with
    | none => rfl
    | some h => exact (byIndexLookup_mem hfind).2
  · intro k j hk
    constructor
    · intro habs
      unfold onCollectAligned
      rw [List.getElem?_map, hk, Option.map_some', byIndexLookup_eq_none habs]
      rfl
    · intro r hrmem hri hnd
      unfold onCollectAligned
      rw [List.getElem?_map, hk, Option.map_some', byIndexLookup_eq_some hnd hrmem hri]

/-- Witness for C4: collecting with an empty accumulator synthesizes the
queued placeholder. -/
theorem onCollect_alignment_witness :
    (onCollectAligned [{ index := 0, prompt := "p", refs := [], payload := none }] [] 5)[0]? =
      some ({ job_id := "pending_0"
              status := .queued
              job := { index := 0, prompt := "p", refs := [], payload := none }
              submit_ts := 5
              finish_ts := none
              result_placeholder := none
              error := none } : Handle) := by
  have h := ((onCollect_alignment [{ index := 0, prompt := "p", refs := [], payload := none }]
      [] 5).2.2 0 { index := 0, prompt := "p", refs := [], payload := none } rfl).1
    (by simp)
  rw [h]
  decide

/-! ### JobRunner (C8) -/

/-- Claim C8: `simulateRunJob` returns a copy of its input handle (the
input is not mutated — the model is pure and the output preserves
`job_id`, `job` and `submit_ts`); the copy is failed with the fixed
message and `finish_ts` set exactly when the draw falls below
`failRate`, and otherwise succeeded with `finish_ts` set and a
placeholder derived only from the job index; both branches are
terminal. -/
theorem simulateRunJob_spec (h : Handle) (failRate r2 : Rat) (now : Nat) :
    (r2 < failRate →
      simulateRunJob h failRate r2 now =
        { h with
            status := .failed
            error := some "Simulated error"
            finish_ts := some now })
  ∧ (¬ r2 < failRate →
      simulateRunJob h failRate r2 now =
        { h with
            status := .succeeded
            result_placeholder := some ("OK:" ++ toString h.job.index)
            finish_ts := some now })
  ∧ ((simulateRunJob h failRate r2 now).status = .failed ∨
      (simulateRunJob h failRate r2 now).status = .succeeded)
  ∧ (simulateRunJob h failRate r2 now).job = h.job
  ∧ (simulateRunJob h failRate r2 now).job_id = h.job_id
  ∧ (simulateRunJob h failRate r2 now).submit_ts = h.submit_ts
  ∧ (¬ r2 < failRate → ∀ h2 : Handle, h2.job.index = h.job.index →
      (simulateRunJob h2 failRate r2 now).result_placeholder =
        (simulateRunJob h failRate r2 now).result_placeholder) := by
  refine ⟨fun hc => ?_, fun hc => ?_, ?_, ?_, ?_, ?_, fun hc h2 hidx => ?_⟩
  · rw [simulateRunJob, if_pos hc]
  · rw [simulateRunJob, if_neg hc]
  · rw [simulateRunJob]
    split
    · exact Or.inl rfl
    · exact Or.inr rfl
  · rw [simulateRunJob]
    split <;> rfl
  · rw [simulateRunJob]
    split <;> rfl
  · rw [simulateRunJob]
    split <;> rfl
  · rw [simulateRunJob, simulateRunJob, if_neg hc, if_neg hc, hidx]

/-- Witness for C8: a draw below the failure rate fails the handle, a
draw at or above it succeeds it with the index-derived placeholder. -/
theorem simulateRunJob_spec_witness :
    simulateRunJob
        { job_id := "job_1"
          status := .running
          job := { index := 2, prompt := "p", refs := [], payload := none }
          submit_ts := 10 } 1 0 11 =
      { job_id := "job_1"
        status := .failed
        job := { index := 2, prompt := "p", refs := [], payload := none }
        submit_ts := 10
        finish_ts := some 11
        result_placeholder := none
        error := some "Simulated error" }
  ∧ simulateRunJob
        { job_id := "job_1"
          status := .running
          job := { index := 2, prompt := "p", refs := [], payload := none }
          submit_ts := 10 } 0 0 11 =
      { job_id := "job_1"
        status := .succeeded
        job := { index := 2, prompt := "p", refs := [], payload := none }
        submit_ts := 10
        finish_ts := some 11
        result_placeholder := some "OK:2"
        error := none } := by
  constructor
  · have h := (simulateRunJob_spec
        { job_id := "job_1"
          status := .running
          job := { index := 2, prompt := "p", refs := [], payload := none }
          submit_ts := 10 } 1 0 11).1 zero_lt_one
    rw [h]
  · have h := (simulateRunJob_spec
        { job_id := "job_1"
          status := .running
          job := { index := 2, prompt := "p", refs := [], payload := none }
          submit_ts := 10 } 0 0 11).2.1 (lt_irrefl 0)
    rw [h]
    decide

/-! ### ConcurrencyPool (C3, C9) -/

/-- Full characterization of one `pump` call: it dispatches some number
`m` of consecutive item positions, stopping exactly when the concurrency
cap is reached or the queue is exhausted, and touches neither `res` nor
the resolution flag. -/
theorem pump_spec_aux (n k : Nat) :
    ∀ (fuel : Nat) (s : PoolState R), n - s.nextI ≤ fuel → s.nextI ≤ n →
      ∃ m : Nat, s.nextI + m ≤ n ∧
        pump n k s =
          { nextI := s.nextI + m
            inFlight := s.inFlight ++ List.range' s.nextI m
            res := s.res
            resolvedWith := s.resolvedWith } ∧
        (k ≤ s.inFlight.length + m ∨ s.nextI + m = n) ∧
        (s.inFlight.length + m ≤ k ∨ m = 0) := by
  intro fuel
  induction fuel with
  | zero =>
    intro s hfuel hn
    refine ⟨0, by omega, ?_, by omega, Or.inr rfl⟩
    rw [pump, dif_neg (by omega)]
    simp
  | succ fuel ih =>
    intro s hfuel hn
    by_cases hc : s.inFlight.length < k ∧ s.nextI < n
    · obtain ⟨m, h1, h2, h3, h4⟩ := ih
        { s with
            nextI := s.nextI + 1
            inFlight := s.inFlight ++ [s.nextI] }
        (by dsimp only; omega) (by dsimp only; omega)
      dsimp only at h1 h2 h3 h4
      simp only [List.length_append, List.length_cons, List.length_nil] at h3 h4
      refine ⟨m + 1, by omega, ?_, by omega, by omega⟩
      rw [pump, dif_pos hc, h2]
      have harith : s.nextI + 1 + m = s.nextI + (m + 1) := by omega
      rw [List.range'_succ, harith, List.append_assoc, List.singleton_append]
    · refine ⟨0, by omega, ?_, by omega, Or.inr rfl⟩
      rw [pump, dif_neg hc]
      simp

/-- `pump_spec_aux` instantiated with sufficient fuel. -/
theorem pump_spec (n k : Nat) (s : PoolState R) (hn : s.nextI ≤ n) :
    ∃ m : Nat, s.nextI + m ≤ n ∧
      pump n k s =
        { nextI := s.nextI + m
          inFlight := s.inFlight ++ List.range' s.nextI m
          res := s.res
          resolvedWith := s.resolvedWith } ∧
      (k ≤ s.inFlight.length + m ∨ s.nextI + m = n) ∧
      (s.inFlight.length + m ≤ k ∨ m = 0) :=
  pump_spec_aux n k (n - s.nextI) s (Nat.le_refl _) hn

/-- Invariant of every reachable pool state with settlement trace `tr`:
the dispatch counter is bounded by the item count, the in-flight list
respects the concurrency cap and accounts (together with the pushed
results) for every dispatched position exactly once, the pushed results
are the worker results of the trace in settlement order, an unresolved
state is either saturated or fully dispatched and is not yet full, and
a resolved state resolved with exactly its full result list. -/
def PoolInv (f : Nat → R) (n k : Nat) (tr : List Nat) (s : PoolState R) : Prop :=
  s.nextI ≤ n ∧
  s.inFlight.length ≤ k ∧
  (∀ j ∈ s.inFlight, j < s.nextI) ∧
  s.res.length + s.inFlight.length = s.nextI ∧
  s.res = tr.map f ∧
  List.Perm (tr ++ s.inFlight) (List.range s.nextI) ∧
  (s.resolvedWith = none → k ≤ s.inFlight.length ∨ s.nextI = n) ∧
  (s.resolvedWith = none → s.res.length = n → n = 0) ∧
  (∀ l, s.resolvedWith = some l → l = s.res ∧ s.res.length = n)

/-- Splitting `range (a + m)` at `a`. -/
theorem range_add_split (a m : Nat) :
    List.range (a + m) = List.range a ++ List.range' a m := by
  rw [List.range_eq_range', List.range_eq_range']
  have h := List.range'_append_1 0 a m
  rw [Nat.zero_add] at h
  rw [Nat.add_comm a m]
  exact h.symm

/-- Every reachable state of the pool satisfies the invariant. -/
theorem reaches_inv (f : Nat → R) (n k : Nat) :
    ∀ (tr : List Nat) (s : PoolState R), Reaches f n k tr s → PoolInv f n k tr s := by
  intro tr s h
  induction h with
  | init =>
    obtain ⟨m, hm, heq, hstop, hcap⟩ :=
      pump_spec n k { nextI := 0, inFlight := [], res := [], resolvedWith := none }
        (Nat.zero_le n)
    dsimp only at hm heq hstop hcap
    simp only [List.length_nil] at hstop hcap
    rw [heq]
    refine ⟨by dsimp only; omega, ?_, ?_, ?_, rfl, ?_, ?_, ?_, ?_⟩
    · dsimp only
      simp only [List.nil_append, List.length_range']
      omega
    · intro j hj
      dsimp only at hj ⊢
      simp only [List.nil_append] at hj
      have := List.mem_range'_1.mp hj
      omega
    · dsimp only
      simp only [List.length_nil, List.nil_append, List.length_range']
    · dsimp only
      simp only [List.nil_append, List.nil_append]
      rw [show (0 : Nat) + m = m from by omega, List.range_eq_range']
    · intro _
      dsimp only
      simp only [List.nil_append, List.length_range']
      omega
    · intro _ hres2
      dsimp only at hres2
      simp only [List.length_nil] at hres2
      omega
    · intro l hl
      exact Option.noConfusion hl
  | step h hj hres ih =>
    rename_i tr0 s0 j
    obtain ⟨i1, i2, i3, i4, i5, i6, i7, i8, i9⟩ := ih
    have hjlt : j < s0.nextI := i3 j hj
    have hcnt : (s0.inFlight.erase j).length = s0.inFlight.length - 1 :=
      List.length_erase_of_mem hj
    have hfl : 1 ≤ s0.inFlight.length :=
      List.length_pos.mpr (List.ne_nil_of_mem hj)
    have hres1 : s0.res ++ [f j] = ((tr0 ++ [j]).map f) := by
      rw [List.map_append, i5]
      rfl
    have hperm1 : List.Perm ((tr0 ++ [j]) ++ s0.inFlight.erase j)
        (List.range s0.nextI) := by
      have h1 : List.Perm s0.inFlight (j :: s0.inFlight.erase j) :=
        List.perm_cons_erase hj
      have h2 : List.Perm (tr0 ++ s0.inFlight) (tr0 ++ (j :: s0.inFlight.erase j)) :=
        List.Perm.append_left tr0 h1
      rw [List.append_assoc, List.singleton_append]
      exact h2.symm.trans i6
    show PoolInv f n k (tr0 ++ [j]) (settle f n k j s0)
    unfold settle
    by_cases hlen : (s0.res ++ [f j]).length = n
    · rw [if_pos hlen]
      simp only [List.length_append, List.length_cons, List.length_nil] at hlen
      refine ⟨i1, ?_, ?_, ?_, hres1, hperm1, ?_, ?_, ?_⟩
      · dsimp only
        calc (s0.inFlight.erase j).length ≤ s0.inFlight.length :=
              List.length_erase_le j s0.inFlight
          _ ≤ k := i2
      · intro a ha
        dsimp only at ha ⊢
        exact i3 a (List.mem_of_mem_erase ha)
      · dsimp only
        simp only [List.length_append, List.length_cons, List.length_nil]
        omega
      · intro habs
        exact Option.noConfusion habs
      · intro habs
        exact Option.noConfusion habs
      · intro l hl
        dsimp only at hl ⊢
        refine ⟨(Option.some.inj hl).symm, ?_⟩
        simp only [List.length_append, List.length_cons, List.length_nil]
        omega
    · rw [if_neg hlen]
      obtain ⟨m, hm, heq, hstop, hcap⟩ :=
        pump_spec n k
          { s0 with
              inFlight := s0.inFlight.erase j
              res := s0.res ++ [f j] } i1
      dsimp only at hm heq hstop hcap
      rw [heq]
      simp only [List.length_append, List.length_cons, List.length_nil] at hlen hstop hcap
      refine ⟨by dsimp only; omega, ?_, ?_, ?_, ?_, ?_, ?_, ?_, ?_⟩
      · dsimp only
        simp only [List.length_append, List.length_range']
        omega
      · intro a ha
        dsimp only at ha ⊢
        rcases List.mem_append.mp ha with ha | ha
        · have := i3 a (List.mem_of_mem_erase ha)
          omega
        · have := List.mem_range'_1.mp ha
          omega
      · dsimp only
        simp only [List.length_append, List.length_cons, List.length_nil,
          List.length_range']
        omega
      · dsimp only
        exact hres1
      · dsimp only
        rw [range_add_split, ← List.append_assoc]
        exact hperm1.append_right (List.range' s0.nextI m)
      · intro _
        dsimp only
        simp only [List.length_append, List.length_range']
        omega
      · intro _ habs
        dsimp only at habs
        simp only [List.length_append, List.length_cons, List.length_nil] at habs
        omega
      · intro l hl
        dsimp only at hl
        rw [hres] at hl
        exact Option.noConfusion hl

/-- Claim C3 (code bug): with an empty item list, `pump` dispatches
nothing, so `resolve` — which is only ever invoked from a settling
worker's `finally` callback — can never run: every reachable state of
the `n = 0` run is the initial one, unresolved, with no worker ever
invoked.  The promise returned by `runWithConcurrency` therefore never
settles, instead of resolving immediately with `[]` as specified. -/
theorem runWithConcurrency_empty_never_resolves (f : Nat → R) (k : Nat)
    (tr : List Nat) (s : PoolState R) (h : Reaches f 0 k tr s) :
    s.resolvedWith = none ∧ s.nextI = 0 ∧ s.res = [] ∧ s.inFlight = [] := by
  induction h with
  | init =>
    obtain ⟨m, hm, heq, -, -⟩ :=
      pump_spec 0 k { nextI := 0, inFlight := [], res := [], resolvedWith := none }
        (Nat.le_refl 0)
    dsimp only at hm heq
    have hm0 : m = 0 := by omega
    subst hm0
    rw [heq]
    exact ⟨rfl, rfl, rfl, rfl⟩
  | step h hj hres ih =>
    rw [ih.2.2.2] at hj
    exact absurd hj (List.not_mem_nil _)

/-- Witness for C3: the concrete `n = 0, k = 3` initial state is stuck
unresolved with nothing dispatched. -/
theorem runWithConcurrency_empty_never_resolves_witness :
    (pump 0 3 ({ nextI := 0, inFlight := [], res := [], resolvedWith := none } :
        PoolState Nat)).resolvedWith = none
  ∧ (pump 0 3 ({ nextI := 0, inFlight := [], res := [], resolvedWith := none } :
        PoolState Nat)).res = ([] : List Nat)
  ∧ (pump 0 3 ({ nextI := 0, inFlight := [], res := [], resolvedWith := none } :
        PoolState Nat)).nextI = 0 := by
  have h := runWithConcurrency_empty_never_resolves (fun j => j) 3 []
    (pump 0 3 { nextI := 0, inFlight := [], res := [], resolvedWith := none })
    Reaches.init
  exact ⟨h.1, h.2.2.1, h.2.1⟩

/-- Claim C9: for a non-empty item list, a worker that always resolves
(modelled by the total result function `f`) and any concurrency bound
`K ≥ 1`, every reachable state has at most `K` workers in flight; a
resolved run returns exactly `len(items)` results, namely the worker
results of the settlement trace in completion order, the trace being a
permutation of all item positions (each item passed to the worker
exactly once); and an unresolved reachable state always has a worker in
flight whose settlement can make progress. -/
theorem runWithConcurrency_spec (f : Nat → R) (n k : Nat)
    (hn : 1 ≤ n) (hk : 1 ≤ k) (tr : List Nat) (s : PoolState R)
    (h : Reaches f n k tr s) :
    s.inFlight.length ≤ k
  ∧ (∀ l, s.resolvedWith = some l →
      l.length = n ∧ l = tr.map f ∧ List.Perm tr (List.range n))
  ∧ (s.resolvedWith = none → s.inFlight ≠ []) := by
  obtain ⟨i1, i2, i3, i4, i5, i6, i7, i8, i9⟩ := reaches_inv f n k tr s h
  refine ⟨i2, ?_, ?_⟩
  · intro l hl
    obtain ⟨hle, hlen⟩ := i9 l hl
    subst hle
    refine ⟨hlen, i5, ?_⟩
    have hlen0 : s.inFlight.length = 0 := by omega
    have hnx : s.nextI = n := by omega
    have hif : s.inFlight = [] := List.length_eq_zero.mp hlen0
    rw [hif, List.append_nil, hnx] at i6
    exact i6
  · intro hnone hemp
    have h7 := i7 hnone
    have h8 := i8 hnone
    rw [hemp] at i4
    simp only [List.length_nil, Nat.add_zero] at i4
    rcases h7 with h7 | h7
    · rw [hemp] at h7
      simp only [List.length_nil] at h7
      omega
    · have := h8 (by omega)
      omega

/-- Evaluation of the first pump of a one-item, `K = 1` run: it
dispatches the single item and stops at the cap. -/
theorem pump_one_eval :
    pump 1 1 ({ nextI := 0, inFlight := [], res := [], resolvedWith := none } :
        PoolState Nat) =
      { nextI := 1, inFlight := [0], res := [], resolvedWith := none } := by
  rw [pump, dif_pos (by simp)]
  rw [pump, dif_neg (by simp)]
  rfl

/-- Witness for C9: the one-item `K = 1` run, after its single worker
settles, is resolved with exactly one result and its trace covers the
single item once. -/
theorem runWithConcurrency_spec_witness :
    (settle (fun _ => (0 : Nat)) 1 1 0
        (pump 1 1 ({ nextI := 0, inFlight := [], res := [], resolvedWith := none } :
          PoolState Nat))).inFlight.length ≤ 1
  ∧ (settle (fun _ => (0 : Nat)) 1 1 0
        (pump 1 1 ({ nextI := 0, inFlight := [], res := [], resolvedWith := none } :
          PoolState Nat))).resolvedWith = some [0]
  ∧ List.Perm [0] (List.range 1) := by
  have hini : Reaches (fun _ => (0 : Nat)) 1 1 []
      (pump 1 1 { nextI := 0, inFlight := [], res := [], resolvedWith := none }) :=
    Reaches.init
  have hmem :
      0 ∈ (pump 1 1 ({ nextI := 0, inFlight := [], res := [], resolvedWith := none } :
        PoolState Nat)).inFlight := by
    rw [pump_one_eval]
    simp
  have hnone :
      (pump 1 1 ({ nextI := 0, inFlight := [], res := [], resolvedWith := none } :
        PoolState Nat)).resolvedWith = none := by
    rw [pump_one_eval]
  have hr : Reaches (fun _ => (0 : Nat)) 1 1 [0]
      (settle (fun _ => (0 : Nat)) 1 1 0
        (pump 1 1 { nextI := 0, inFlight := [], res := [], resolvedWith := none })) := by
    have hstep := Reaches.step hini hmem hnone
    simpa using hstep
  have h := runWithConcurrency_spec (fun _ => (0 : Nat)) 1 1 (Nat.le_refl 1)
    (Nat.le_refl 1) [0] _ hr
  have hsome : (settle (fun _ => (0 : Nat)) 1 1 0
      (pump 1 1 ({ nextI := 0, inFlight := [], res := [], resolvedWith := none } :
        PoolState Nat))).resolvedWith = some [0] := by
    rw [pump_one_eval]
    rfl
  exact ⟨h.1, hsome, (h.2.1 [0] hsome).2.2⟩

end ComfySim
